import Mathlib

/-!
Verification of the order-book depth / candlestick scaling logic of the
arbitrage dashboard (src/app/web/static/js/bookdepth.js and the near-identical
copy in src/app/web/static/js/admin.js).

Modelling conventions for the shallow embedding:
* JavaScript numbers are modelled as rationals (ℚ); the dashboard arithmetic
  is +, −, ×, ÷, min, max and comparisons, all exact on the inputs involved.
* A possibly-null JSON field is an `Option ℚ`; JavaScript coerces `null` to `0`
  in arithmetic contexts, which appears as `.getD 0` at exactly the places the
  source performs arithmetic on a possibly-null field.
* The `'—'` no-value sentinel is `none`; a numeric result is `some q` (the
  trailing `.toFixed(2) + '%'` formatting is display-only and not modelled).
* A CSS style object is a record of `Option ℚ` fields; a key absent from the
  returned object is `none` (so the JS empty object `{}` is the all-`none`
  record, and the numeric value of a `'42%'` / `'1px'` string is kept without
  its unit).
-/

namespace Arbitrage

/-- One price level of an order book: `{price, quantity}`. -/
structure Level where
  price : ℚ
  quantity : ℚ
deriving DecidableEq, Repr

/-- An order-book snapshot as delivered to the component: `bids` / `asks`
arrays may be absent (`null`) on the wire. -/
structure BookDepth where
  bids : Option (List Level) := none
  asks : Option (List Level) := none
deriving DecidableEq, Repr

/-- The bid-side visible window: `(bd && bd.bids) ? bd.bids.slice(0, 20) : []`
(the whole `bookDepth` prop may also be `null`). -/
def bidsWindow (bd : Option BookDepth) : List Level :=
  match bd with
  | none => []
  | some b => (b.bids.getD []).take 20

/-- The ask-side visible window: `(bd && bd.asks) ? bd.asks.slice(0, 20) : []`. -/
def asksWindow (bd : Option BookDepth) : List Level :=
  match bd with
  | none => []
  | some b => (b.asks.getD []).take 20

/-- Notional (USD) value of a level: `Number(x.price) * Number(x.quantity)`. -/
def notional (l : Level) : ℚ := l.price * l.quantity

/-- Maximum notional over a window:
`Math.max.apply(null, window.map(x => Number(x.price) * Number(x.quantity)))`.
The source only evaluates this on a non-empty window; the `[]` branch is an
arbitrary total completion. -/
def maxNotional (ls : List Level) : ℚ :=
  match ls with
  | [] => 0
  | h :: t => (t.map notional).foldl max (notional h)

/-- Shared body of `depthPctBid` / `depthPctAsk` (the two methods are verbatim
copies differing only in which window they read):
returns `0` on an empty window or non-positive maximum, otherwise
`Math.min(100, notional / maxUsd * 100)`. -/
def depthPctCore (window : List Level) (b : Level) : ℚ :=
  if window.isEmpty then 0
  else
    let maxUsd := maxNotional window
    if maxUsd ≤ 0 then 0
    else min 100 (notional b / maxUsd * 100)

/-- `depthPctBid(b)` from bookdepth.js (admin.js copy is identical modulo
where the snapshot is read from). -/
def depthPctBid (bd : Option BookDepth) (b : Level) : ℚ :=
  depthPctCore (bidsWindow bd) b

/-- `depthPctAsk(a)` from bookdepth.js (admin.js copy is identical modulo
where the snapshot is read from). -/
def depthPctAsk (bd : Option BookDepth) (a : Level) : ℚ :=
  depthPctCore (asksWindow bd) a

/-- `bookDepthSpreadPct(rowIndex)` from bookdepth.js: sentinel if a row is
missing on either side, or `!bidPrice || !askPrice || askPrice <= bidPrice`
(JS falsiness: `!x` on a number holds exactly at `0`, NaN aside), otherwise
`((askPrice - bidPrice) / mid) * 100` with `mid = (bidPrice + askPrice) / 2`. -/
def bookDepthSpreadPct (bd : Option BookDepth) (rowIndex : ℕ) : Option ℚ :=
  let bids := bidsWindow bd
  let asks := asksWindow bd
  if bids.length ≤ rowIndex ∨ asks.length ≤ rowIndex then none
  else
    let bidPrice := (bids.getD rowIndex ⟨0, 0⟩).price
    let askPrice := (asks.getD rowIndex ⟨0, 0⟩).price
    if bidPrice = 0 ∨ askPrice = 0 ∨ askPrice ≤ bidPrice then none
    else some ((askPrice - bidPrice) / ((bidPrice + askPrice) / 2) * 100)

/-- `bookDepthSpreadPct(rowIndex)` from admin.js: identical to the bookdepth.js
copy except the numerator is doubled: `(2 * (askPrice - bidPrice) / mid) * 100`. -/
def admin_bookDepthSpreadPct (bd : Option BookDepth) (rowIndex : ℕ) : Option ℚ :=
  let bids := bidsWindow bd
  let asks := asksWindow bd
  if bids.length ≤ rowIndex ∨ asks.length ≤ rowIndex then none
  else
    let bidPrice := (bids.getD rowIndex ⟨0, 0⟩).price
    let askPrice := (asks.getD rowIndex ⟨0, 0⟩).price
    if bidPrice = 0 ∨ askPrice = 0 ∨ askPrice ≤ bidPrice then none
    else some (2 * (askPrice - bidPrice) / ((bidPrice + askPrice) / 2) * 100)

/-! Helper lemmas about the left fold computing `Math.max` over a list. -/

lemma init_le_foldl_max : ∀ (l : List ℚ) (a : ℚ), a ≤ l.foldl max a
  | [], _ => le_refl _
  | x :: t, a => le_trans (le_max_left a x) (init_le_foldl_max t (max a x))

lemma mem_le_foldl_max : ∀ (l : List ℚ) (a x : ℚ), x ∈ l → x ≤ l.foldl max a := by
  intro l
  induction l with
  | nil => intro a x h; simp at h
  | cons y t ih =>
    intro a x h
    rcases List.mem_cons.mp h with rfl | h
    · exact le_trans (le_max_right a x) (init_le_foldl_max t _)
    · exact ih _ _ h

lemma foldl_max_le : ∀ (l : List ℚ) (a b : ℚ), a ≤ b → (∀ x ∈ l, x ≤ b) → l.foldl max a ≤ b := by
  intro l
  induction l with
  | nil => intro a b ha _; exact ha
  | cons y t ih =>
    intro a b ha h
    exact ih _ _ (max_le ha (h y (List.mem_cons_self y t))) fun x hx => h x (List.mem_cons_of_mem y hx)

lemma notional_le_maxNotional (ls : List Level) (x : Level) (hx : x ∈ ls) :
    notional x ≤ maxNotional ls := by
  match ls with
  | [] => simp at hx
  | h :: t =>
    rcases List.mem_cons.mp hx with rfl | hx
    · exact init_le_foldl_max _ _
    · exact mem_le_foldl_max _ _ _ (List.mem_map_of_mem notional hx)

lemma maxNotional_le (ls : List Level) (b : ℚ) (hne : ls ≠ [])
    (h : ∀ x ∈ ls, notional x ≤ b) : maxNotional ls ≤ b := by
  match ls with
  | [] => exact absurd rfl hne
  | y :: t =>
    refine foldl_max_le _ _ _ (h y (List.mem_cons_self y t)) ?_
    intro x hx
    obtain ⟨z, hz, rfl⟩ := List.mem_map.mp hx
    exact h z (List.mem_cons_of_mem y hz)

/-! Behaviour of the shared bar-width computation. -/

lemma depthPctCore_le_100 (w : List Level) (b : Level) : depthPctCore w b ≤ 100 := by
  simp only [depthPctCore]
  split_ifs <;> norm_num

lemma depthPctCore_nonneg (w : List Level) (b : Level) (h : 0 ≤ notional b) :
    0 ≤ depthPctCore w b := by
  simp only [depthPctCore]
  split_ifs with h1 h2
  · norm_num
  · norm_num
  · push_neg at h2
    exact le_min (by norm_num) (mul_nonneg (div_nonneg h h2.le) (by norm_num))

lemma depthPctCore_empty (b : Level) : depthPctCore [] b = 0 := by
  simp [depthPctCore]

lemma depthPctCore_nonpos_max (w : List Level) (b : Level) (h : maxNotional w ≤ 0) :
    depthPctCore w b = 0 := by
  simp only [depthPctCore]
  split_ifs <;> rfl

lemma depthPctCore_unique_max (w : List Level) (b : Level) (hmem : b ∈ w)
    (hpos : 0 < notional b) (huniq : ∀ x ∈ w, x ≠ b → notional x < notional b) :
    depthPctCore w b = 100 := by
  have hne : w ≠ [] := List.ne_nil_of_mem hmem
  have hmax : maxNotional w = notional b := by
    refine le_antisymm (maxNotional_le w _ hne ?_) (notional_le_maxNotional w b hmem)
    intro x hx
    by_cases hxb : x = b
    · exact hxb ▸ le_refl _
    · exact (huniq x hx hxb).le
  simp only [depthPctCore]
  rw [if_neg (by simpa [List.isEmpty_iff] using hne), hmax, if_neg (not_le.mpr hpos),
    div_self (ne_of_gt hpos), one_mul, min_self]

/-- C1: for every snapshot and row index at which both the bid and ask sides
have a level inside their first-20-level windows, with `0 < bidPrice < askPrice`,
`bookDepthSpreadPct` (bookdepth.js) returns
`(askPrice − bidPrice) / ((bidPrice + askPrice)/2) × 100`, the non-doubled
spread percentage. -/
theorem bookDepthSpreadPct_formula (bd : Option BookDepth) (i : ℕ)
    (hb : i < (bidsWindow bd).length) (ha : i < (asksWindow bd).length)
    (hpos : 0 < ((bidsWindow bd).getD i ⟨0, 0⟩).price)
    (hlt : ((bidsWindow bd).getD i ⟨0, 0⟩).price < ((asksWindow bd).getD i ⟨0, 0⟩).price) :
    bookDepthSpreadPct bd i =
      some ((((asksWindow bd).getD i ⟨0, 0⟩).price - ((bidsWindow bd).getD i ⟨0, 0⟩).price) /
        ((((bidsWindow bd).getD i ⟨0, 0⟩).price + ((asksWindow bd).getD i ⟨0, 0⟩).price) / 2) *
          100) := by
  simp only [bookDepthSpreadPct]
  rw [if_neg (by omega), if_neg]
  push_neg
  exact ⟨hpos.ne', (hpos.trans hlt).ne', hlt⟩

/-- C1 witness: bids `[{100,1}]`, asks `[{101,1}]` at row 0 give the
non-doubled spread `(101−100)/100.5×100 = 200/201 ≈ 0.995`. -/
theorem bookDepthSpreadPct_formula_witness :
    bookDepthSpreadPct (some ⟨some [⟨100, 1⟩], some [⟨101, 1⟩]⟩) 0 = some (200 / 201) := by
  rw [bookDepthSpreadPct_formula (some ⟨some [⟨100, 1⟩], some [⟨101, 1⟩]⟩) 0
    (by simp [bidsWindow]) (by simp [asksWindow])
    (by norm_num [bidsWindow]) (by norm_num [bidsWindow, asksWindow])]
  norm_num [bidsWindow, asksWindow]

/-- C2: the two copies of the spread computation are not equivalent — on a
snapshot with a valid uncrossed row, the admin.js copy returns exactly twice
the percentage returned by the bookdepth.js copy, so their outputs differ. -/
theorem spread_copies_diverge :
    ∃ (bd : Option BookDepth) (i : ℕ) (q : ℚ),
      i < (bidsWindow bd).length ∧ i < (asksWindow bd).length ∧
      0 < ((bidsWindow bd).getD i ⟨0, 0⟩).price ∧
      ((bidsWindow bd).getD i ⟨0, 0⟩).price < ((asksWindow bd).getD i ⟨0, 0⟩).price ∧
      bookDepthSpreadPct bd i = some q ∧
      admin_bookDepthSpreadPct bd i = some (2 * q) ∧
      admin_bookDepthSpreadPct bd i ≠ bookDepthSpreadPct bd i := by
  refine ⟨some ⟨some [⟨100, 1⟩], some [⟨101, 1⟩]⟩, 0, 200 / 201, ?_, ?_, ?_, ?_, ?_, ?_, ?_⟩ <;>
    norm_num [bookDepthSpreadPct, admin_bookDepthSpreadPct, bidsWindow, asksWindow]

/-- C3 counterexample: at bids `[{-1,1}]`, asks `[{2,1}]` the bid price is
`≤ 0`, yet the code returns a numeric value (600) instead of the sentinel —
the JS falsiness guard `!bidPrice` only catches a price of exactly `0`. -/
theorem spread_sentinel_cex :
    ((bidsWindow (some ⟨some [⟨-1, 1⟩], some [⟨2, 1⟩]⟩)).getD 0 ⟨0, 0⟩).price ≤ 0 ∧
    bookDepthSpreadPct (some ⟨some [⟨-1, 1⟩], some [⟨2, 1⟩]⟩) 0 ≠ none := by
  constructor
  · norm_num [bidsWindow]
  · have h : bookDepthSpreadPct (some ⟨some [⟨-1, 1⟩], some [⟨2, 1⟩]⟩) 0 = some 600 := by
      norm_num [bookDepthSpreadPct, bidsWindow, asksWindow]
    simp [h]

/-- C3 (amended): `bookDepthSpreadPct` returns the sentinel if and only if a
side lacks the row within its 20-level window, or `bidPrice = 0`, or
`askPrice = 0`, or `askPrice ≤ bidPrice` (exact zero, not `≤ 0`: JS falsiness);
in all other cases it returns a numeric value. -/
theorem spread_sentinel_iff (bd : Option BookDepth) (i : ℕ) :
    bookDepthSpreadPct bd i = none ↔
      (bidsWindow bd).length ≤ i ∨ (asksWindow bd).length ≤ i ∨
      ((bidsWindow bd).getD i ⟨0, 0⟩).price = 0 ∨
      ((asksWindow bd).getD i ⟨0, 0⟩).price = 0 ∨
      ((asksWindow bd).getD i ⟨0, 0⟩).price ≤ ((bidsWindow bd).getD i ⟨0, 0⟩).price := by
  simp only [bookDepthSpreadPct]
  split_ifs with h1 h2
  · simp only [true_iff]
    tauto
  · simp only [true_iff]
    tauto
  · simp only [reduceCtorEq, false_iff]
    push_neg at h1 h2 ⊢
    exact ⟨h1.1, h1.2, h2.1, h2.2.1, h2.2.2⟩

/-- C4 counterexample: with bids `[{100,1}, {-5,1}]` the level `{-5,1}` has
negative notional and `depthPctBid` returns `min(100, −5) = −5 < 0`, outside
the claimed `[0,100]` range. -/
theorem depthPct_range_cex :
    depthPctBid (some ⟨some [⟨100, 1⟩, ⟨-5, 1⟩], none⟩) ⟨-5, 1⟩ < 0 := by
  norm_num [depthPctBid, depthPctCore, bidsWindow, maxNotional, notional]

/-- C4 (amended): `depthPctBid` / `depthPctAsk` are always `≤ 100`, and lie in
`[0,100]` whenever the queried level's notional is non-negative; they return
`0` when the side's 20-level window is empty or its maximum notional is `≤ 0`;
and they return exactly `100` for a level of the window whose notional is
positive and strictly above every other level's notional. -/
theorem depthPct_range (bd : Option BookDepth) (b : Level) :
    depthPctBid bd b ≤ 100 ∧ depthPctAsk bd b ≤ 100 ∧
    (0 ≤ notional b → 0 ≤ depthPctBid bd b ∧ 0 ≤ depthPctAsk bd b) ∧
    (bidsWindow bd = [] → depthPctBid bd b = 0) ∧
    (asksWindow bd = [] → depthPctAsk bd b = 0) ∧
    (maxNotional (bidsWindow bd) ≤ 0 → depthPctBid bd b = 0) ∧
    (maxNotional (asksWindow bd) ≤ 0 → depthPctAsk bd b = 0) ∧
    (b ∈ bidsWindow bd → 0 < notional b →
      (∀ x ∈ bidsWindow bd, x ≠ b → notional x < notional b) → depthPctBid bd b = 100) ∧
    (b ∈ asksWindow bd → 0 < notional b →
      (∀ x ∈ asksWindow bd, x ≠ b → notional x < notional b) → depthPctAsk bd b = 100) :=
  ⟨depthPctCore_le_100 _ b, depthPctCore_le_100 _ b,
   fun h => ⟨depthPctCore_nonneg _ b h, depthPctCore_nonneg _ b h⟩,
   fun h => by unfold depthPctBid; rw [h]; exact depthPctCore_empty b,
   fun h => by unfold depthPctAsk; rw [h]; exact depthPctCore_empty b,
   fun h => depthPctCore_nonpos_max _ b h, fun h => depthPctCore_nonpos_max _ b h,
   fun hm hp hu => depthPctCore_unique_max _ b hm hp hu,
   fun hm hp hu => depthPctCore_unique_max _ b hm hp hu⟩

/-- C4 witness: on bids `[{100,1}, {50,1}]` with no asks, the unique-maximum
level gets bar width exactly 100, the other level a non-negative width, and
the empty ask side gets width 0. -/
theorem depthPct_range_witness :
    depthPctBid (some ⟨some [⟨100, 1⟩, ⟨50, 1⟩], none⟩) ⟨100, 1⟩ = 100 ∧
    0 ≤ depthPctBid (some ⟨some [⟨100, 1⟩, ⟨50, 1⟩], none⟩) ⟨50, 1⟩ ∧
    depthPctAsk (some ⟨some [⟨100, 1⟩, ⟨50, 1⟩], none⟩) ⟨1, 1⟩ = 0 :=
  ⟨(depthPct_range (some ⟨some [⟨100, 1⟩, ⟨50, 1⟩], none⟩) ⟨100, 1⟩).2.2.2.2.2.2.2.1
      (by simp [bidsWindow]) (by norm_num [notional])
      (by
        intro x hx hne
        rw [show bidsWindow (some ⟨some [⟨100, 1⟩, ⟨50, 1⟩], none⟩) =
            [⟨100, 1⟩, ⟨50, 1⟩] from by simp [bidsWindow]] at hx
        rcases List.mem_cons.mp hx with rfl | hx2
        · exact absurd rfl hne
        · rcases List.mem_singleton.mp hx2 with rfl
          norm_num [notional]),
   ((depthPct_range (some ⟨some [⟨100, 1⟩, ⟨50, 1⟩], none⟩) ⟨50, 1⟩).2.2.1
      (by norm_num [notional])).1,
   (depthPct_range (some ⟨some [⟨100, 1⟩, ⟨50, 1⟩], none⟩) ⟨1, 1⟩).2.2.2.2.1
      (by simp [asksWindow])⟩

/-! The KLines candlestick component (same file bookdepth.js, `klines-chart`;
admin.js carries a textually identical copy of every method modelled below,
reading `selectedIteration.klines` instead of the `klines` prop). -/

/-- One candle as delivered over the wire; every field may be `null`. -/
structure Kline where
  open_price : Option ℚ := none
  high_price : Option ℚ := none
  low_price : Option ℚ := none
  close_price : Option ℚ := none
  utc_open_time : Option ℚ := none
  coin_volume : Option ℚ := none
  usd_volume : Option ℚ := none
deriving DecidableEq, Repr

/-- Result of `klinesScale`: `{min, max}` of the price axis. -/
structure ScaleRange where
  min : ℚ
  max : ℚ
deriving DecidableEq, Repr

/-- A returned style object; `none` marks a key the source left out of the
object (JS `{}` is the all-`none` record). -/
structure Style where
  left : Option ℚ := none
  width : Option ℚ := none
  height : Option ℚ := none
  bottom : Option ℚ := none
deriving DecidableEq, Repr

/-- The `forEach` accumulator for the running minimum of non-null `low_price`
values; `none` is the initial `Infinity`. -/
def foldLow (k : List Kline) : Option ℚ :=
  k.foldl
    (fun low c =>
      match c.low_price, low with
      | some p, none => some p
      | some p, some a => if p < a then some p else some a
      | none, a => a)
    none

/-- The `forEach` accumulator for the running maximum of non-null `high_price`
values; `none` is the initial `-Infinity`. -/
def foldHigh (k : List Kline) : Option ℚ :=
  k.foldl
    (fun high c =>
      match c.high_price, high with
      | some p, none => some p
      | some p, some a => if a < p then some p else some a
      | none, a => a)
    none

/-- `klinesScale(klines)`: `{0,1}` on an empty (or null) sequence; otherwise
min/max of the non-null lows/highs, `low` patched to `0` when it stayed at
`Infinity`, and `high` patched to `low + 1` whenever `high <= low` (which in
particular covers `high` still at `-Infinity`). -/
def klinesScale (k : List Kline) : ScaleRange :=
  if k.isEmpty then ⟨0, 1⟩
  else
    let low := (foldLow k).getD 0
    match foldHigh k with
    | none => ⟨low, low + 1⟩
    | some h => if h ≤ low then ⟨low, low + 1⟩ else ⟨low, h⟩

/-- `candleWickStyle(c)`: `{}` on an empty sequence or a zero price range,
otherwise height `max(0.5, highPct - lowPct)` (the `'%'` unit dropped), bottom
`lowPct`, width `1` (the `'1px'` unit dropped). A `null` price coerces to `0`
in the JS subtraction. -/
def candleWickStyle (k : List Kline) (c : Kline) : Style :=
  if k.isEmpty then {}
  else
    let scale := klinesScale k
    let range := scale.max - scale.min
    if range = 0 then {}
    else
      let lowPct := (c.low_price.getD 0 - scale.min) / range * 100
      let highPct := (c.high_price.getD 0 - scale.min) / range * 100
      { height := some (max 0.5 (highPct - lowPct)), bottom := some lowPct, width := some 1 }

/-- `candleBodyStyle(c, idx)`: `{}` on an empty sequence or a zero price range,
otherwise bottom `min(openPct, closePct)`, height `max(1, |closePct - openPct|)`,
width `100` (the `'100%'` unit dropped). -/
def candleBodyStyle (k : List Kline) (c : Kline) : Style :=
  if k.isEmpty then {}
  else
    let scale := klinesScale k
    let range := scale.max - scale.min
    if range = 0 then {}
    else
      let openPct := (c.open_price.getD 0 - scale.min) / range * 100
      let closePct := (c.close_price.getD 0 - scale.min) / range * 100
      { height := some (max 1 |closePct - openPct|), bottom := some (min openPct closePct),
        width := some 100 }

/-- `candleColStyle(idx)`: `{}` on an empty sequence, otherwise the column
layout `left = idx/len×100`, `width = max(1.5, (100/len)×0.9)`. -/
def candleColStyle (k : List Kline) (idx : ℕ) : Style :=
  if k.isEmpty then {}
  else
    let len : ℚ := k.length
    { left := some ((idx : ℚ) / len * 100), width := some (max 1.5 (100 / len * 0.9)) }

/-- Effective volume of a candle:
`c.usd_volume != null && c.usd_volume > 0 ? Number(c.usd_volume) : Number(c.coin_volume || 0)`. -/
def effVol (c : Kline) : ℚ :=
  match c.usd_volume with
  | some u => if 0 < u then u else c.coin_volume.getD 0
  | none => c.coin_volume.getD 0

/-- `klinesVolumeMax` (computed property): `0` on an empty sequence, otherwise
a `forEach` running maximum starting at `0`, replaced only by a strictly larger
effective volume. -/
def klinesVolumeMax (k : List Kline) : ℚ :=
  if k.isEmpty then 0
  else k.foldl (fun m c => if m < effVol c then effVol c else m) 0

/-- `volumeBarStyle(c, idx)`: `{}` on an empty sequence; the bare
`candleColStyle(idx)` when `klinesVolumeMax <= 0` (note: no height key is set
on that path); otherwise the column style with height `max(2, vol/maxVol×100)`
and bottom `0`. -/
def volumeBarStyle (k : List Kline) (c : Kline) (idx : ℕ) : Style :=
  if k.isEmpty then {}
  else
    let maxVol := klinesVolumeMax k
    if maxVol ≤ 0 then candleColStyle k idx
    else
      let vol := effVol c
      let hPct := if 0 < maxVol then vol / maxVol * 100 else 0
      { candleColStyle k idx with height := some (max 2 hPct), bottom := some 0 }

/-- `klinesForChart` (computed property): the caller's oldest-first sequence
reversed once for display. -/
def klinesForChart (k : List Kline) : List Kline :=
  if k.isEmpty then [] else k.reverse

/-- One emitted time-axis label; `label` keeps the raw `utc_open_time` the
locale-formatted display string is generated from. -/
structure TimeLabel where
  index : ℕ
  label : Option ℚ
  leftPct : ℚ
deriving DecidableEq, Repr

/-- The index sequence of the label loop `for (i = 0; i < len; i += step)`:
all multiples of `step` below `len` (there are `⌈len/step⌉` of them). -/
def stepIndices (len step : ℕ) : List ℕ :=
  (List.range ((len + step - 1) / step)).map (fun j => j * step)

/-- Body of `klinesTimeLabels` over the display sequence `k`: `[]` when empty,
a single label at `0%` when one candle, otherwise one label every
`step = max(1, ⌊len/6⌋)` candles at `leftPct = i/(len−1)×100`, plus a final
label at index `len−1` when the last loop label falls more than `step × 0.5`
short of the end. -/
def klinesTimeLabelsOf (k : List Kline) : List TimeLabel :=
  if k.isEmpty then []
  else if k.length = 1 then [⟨0, (k[0]?).bind Kline.utc_open_time, 0⟩]
  else
    let len := k.length
    let step := max 1 (len / 6)
    let out := (stepIndices len step).map
      (fun i => ⟨i, (k[i]?).bind Kline.utc_open_time, (i : ℚ) / ((len : ℚ) - 1) * 100⟩)
    match out.getLast? with
    | none => out
    | some last =>
      if ((len : ℚ) - 1 - (last.index : ℚ)) > (step : ℚ) * 0.5 then
        out ++ [⟨len - 1, (k[len - 1]?).bind Kline.utc_open_time, 100⟩]
      else out

/-- `klinesTimeLabels` (computed property): the label body applied to the
reversed display sequence `this.klinesForChart`. -/
def klinesTimeLabels (klines : List Kline) : List TimeLabel :=
  klinesTimeLabelsOf (klinesForChart klines)

/-- `getOriginalKlineIndex(displayIdx)`: maps a display position on the
reversed sequence back to the original index, `len − 1 − displayIdx` (or `0`
for an empty/null sequence). -/
def getOriginalKlineIndex (k : List Kline) (displayIdx : ℤ) : ℤ :=
  if k.isEmpty then 0 else (k.length : ℤ) - 1 - displayIdx

/-! Helper lemmas for the candlestick scaler. -/

lemma klinesScale_min_lt_max (k : List Kline) : (klinesScale k).min < (klinesScale k).max := by
  simp only [klinesScale]
  split_ifs with h
  · norm_num
  · cases hfh : foldHigh k with
    | none =>
      simp only [hfh]
      exact lt_add_one _
    | some hi =>
      simp only [hfh]
      split_ifs with hle
      · exact lt_add_one _
      · exact not_le.mp hle

lemma stepIndices_ne_nil (len step : ℕ) (hl : 1 ≤ len) (hs : 1 ≤ step) :
    stepIndices len step ≠ [] := by
  unfold stepIndices
  intro h
  rw [List.map_eq_nil_iff, List.range_eq_nil] at h
  rw [Nat.div_eq_zero_iff (by omega)] at h
  omega

lemma klinesTimeLabelsOf_right_edge (k : List Kline) (h : 1 < k.length) :
    ∃ l : TimeLabel, (klinesTimeLabelsOf k).getLast? = some l ∧
      ((k.length : ℚ) - 1) - (l.index : ℚ) ≤ ((max 1 (k.length / 6) : ℕ) : ℚ) * 0.5 := by
  have hne : ¬k.isEmpty := by
    rw [List.isEmpty_iff]
    intro he
    rw [he] at h
    simp at h
  have hlen1 : ¬k.length = 1 := by omega
  simp only [klinesTimeLabelsOf]
  rw [if_neg hne, if_neg hlen1]
  have hstep : 1 ≤ max 1 (k.length / 6) := le_max_left _ _
  have hone : stepIndices k.length (max 1 (k.length / 6)) ≠ [] :=
    stepIndices_ne_nil _ _ (by omega) hstep
  set out := (stepIndices k.length (max 1 (k.length / 6))).map
      (fun i => (⟨i, (k[i]?).bind Kline.utc_open_time,
        (i : ℚ) / ((k.length : ℚ) - 1) * 100⟩ : TimeLabel)) with hout
  have houtne : out ≠ [] := by
    rw [hout]
    intro hmap
    exact hone (List.map_eq_nil_iff.mp hmap)
  obtain ⟨l0, hl0⟩ := Option.isSome_iff_exists.mp (List.getLast?_isSome.mpr houtne)
  simp only [hl0]
  by_cases hc : ((k.length : ℚ) - 1 - (l0.index : ℚ)) > ((max 1 (k.length / 6) : ℕ) : ℚ) * 0.5
  · rw [if_pos hc]
    refine ⟨_, List.getLast?_concat _, ?_⟩
    have hcast : ((k.length - 1 : ℕ) : ℚ) = (k.length : ℚ) - 1 := by
      push_cast [Nat.cast_sub (by omega : 1 ≤ k.length)]
      ring
    simp only [hcast]
    have hp : (0 : ℚ) ≤ ((max 1 (k.length / 6) : ℕ) : ℚ) * 0.5 := by positivity
    linarith
  · rw [if_neg hc]
    exact ⟨l0, hl0, not_lt.mp hc⟩

lemma foldVol_zero : ∀ (l : List Kline), (∀ c ∈ l, effVol c = 0) →
    l.foldl (fun m c => if m < effVol c then effVol c else m) 0 = 0 := by
  intro l
  induction l with
  | nil => intro _; rfl
  | cons c t ih =>
    intro h
    have hc : effVol c = 0 := h c (List.mem_cons_self c t)
    simp only [List.foldl_cons, hc]
    rw [if_neg (lt_irrefl 0)]
    exact ih fun x hx => h x (List.mem_cons_of_mem c hx)

lemma foldVol_nonneg : ∀ (l : List Kline) (a : ℚ), 0 ≤ a →
    0 ≤ l.foldl (fun m c => if m < effVol c then effVol c else m) a := by
  intro l
  induction l with
  | nil => intro a ha; exact ha
  | cons c t ih =>
    intro a ha
    simp only [List.foldl_cons]
    apply ih
    split_ifs with h
    · exact ha.trans h.le
    · exact ha

lemma candleColStyle_height (k : List Kline) (idx : ℕ) :
    (candleColStyle k idx).height = none := by
  simp only [candleColStyle]
  split_ifs <;> rfl

/-- C5: `klinesScale` returns `{0,1}` on the empty sequence; whenever the
folded maximum of the high prices is at most the folded minimum of the low
prices (a degenerate or flat sequence) it returns `{low, low + 1}`; and on
every input the returned range satisfies `max > min`. -/
theorem klinesScale_spec :
    klinesScale [] = ⟨0, 1⟩ ∧
    (∀ (k : List Kline) (lo hi : ℚ), foldLow k = some lo → foldHigh k = some hi →
      hi ≤ lo → klinesScale k = ⟨lo, lo + 1⟩) ∧
    (∀ k : List Kline, (klinesScale k).min < (klinesScale k).max) := by
  refine ⟨by simp [klinesScale], ?_, klinesScale_min_lt_max⟩
  intro k lo hi hlo hhi hle
  have hne : ¬k.isEmpty := by
    rw [List.isEmpty_iff]
    intro he
    rw [he] at hlo
    simp [foldLow] at hlo
  simp only [klinesScale]
  rw [if_neg hne]
  simp [hlo, hhi, hle]

/-- C5 witness: a single candle with `low = high = 5` yields the flattened
divide-safe range `{5, 6}`. -/
theorem klinesScale_spec_witness :
    klinesScale [{ low_price := some 5, high_price := some 5 }] = ⟨5, 6⟩ := by
  rw [klinesScale_spec.2.1 [{ low_price := some 5, high_price := some 5 }] 5 5 rfl rfl le_rfl]
  norm_num [ScaleRange.mk.injEq]

/-- C6 counterexample: 12 candles give `step = 2` and loop labels at indices
0, 2, 4, 6, 8, 10; the right-edge gap `11 − 10 = 1` is not greater than
`step × 0.5 = 1`, so no final label is appended and the last candle's index 11
carries no label. -/
theorem klinesTimeLabels_cex :
    1 < (List.replicate 12 ({} : Kline)).length ∧
    ¬∃ l ∈ klinesTimeLabels (List.replicate 12 ({} : Kline)),
      l.index = (List.replicate 12 ({} : Kline)).length - 1 := by
  have hmap : (klinesTimeLabels (List.replicate 12 ({} : Kline))).map TimeLabel.index
      = [0, 2, 4, 6, 8, 10] := by
    have hsi : stepIndices 12 2 = [0, 2, 4, 6, 8, 10] := rfl
    simp only [klinesTimeLabels, klinesTimeLabelsOf, klinesForChart, List.reverse_replicate,
      List.isEmpty_replicate, List.length_replicate]
    norm_num [hsi]
  constructor
  · simp
  · rintro ⟨l, hl, hidx⟩
    have hmem : l.index ∈ (klinesTimeLabels (List.replicate 12 ({} : Kline))).map
        TimeLabel.index := List.mem_map_of_mem _ hl
    rw [hmap] at hmem
    rw [List.length_replicate] at hidx
    rw [hidx] at hmem
    simp at hmem

/-- C6 (amended): for every candle sequence of length > 1 the returned label
list is non-empty and its final label's index lies within `step × 0.5` of the
last candle's index `length − 1` (with `step = max(1, ⌊length/6⌋)`); a label at
exactly `length − 1` is appended only when the loop's own last label falls more
than `step × 0.5` short of it, and is not guaranteed in general. -/
theorem klinesTimeLabels_right_edge (klines : List Kline) (h : 1 < klines.length) :
    ∃ l : TimeLabel, (klinesTimeLabels klines).getLast? = some l ∧
      ((klines.length : ℚ) - 1) - (l.index : ℚ) ≤
        ((max 1 (klines.length / 6) : ℕ) : ℚ) * 0.5 := by
  have hne : ¬klines.isEmpty := by
    rw [List.isEmpty_iff]
    intro he
    rw [he] at h
    simp at h
  have hchart : klinesForChart klines = klines.reverse := by
    simp [klinesForChart, hne]
  have h2 : 1 < klines.reverse.length := by simpa using h
  have hmain := klinesTimeLabelsOf_right_edge klines.reverse h2
  rw [List.length_reverse] at hmain
  unfold klinesTimeLabels
  rw [hchart]
  exact hmain

/-- C6 witness: two candles give labels at indices 0 and 1; the final label is
index 1 = length − 1, at gap 0 ≤ step × 0.5. -/
theorem klinesTimeLabels_right_edge_witness :
    ∃ l : TimeLabel,
      (klinesTimeLabels (List.replicate 2 ({} : Kline))).getLast? = some l ∧
      (((List.replicate 2 ({} : Kline)).length : ℚ) - 1) - (l.index : ℚ) ≤
        ((max 1 ((List.replicate 2 ({} : Kline)).length / 6) : ℕ) : ℚ) * 0.5 :=
  klinesTimeLabels_right_edge _ (by simp)

/-- C7 counterexample: a single candle with no volume fields gives volume
maximum 0, but `volumeBarStyle` then returns the bare column style whose
`height` key is absent (`none`), not a height of `0`. -/
theorem volumeBar_zero_cex :
    klinesVolumeMax [({} : Kline)] = 0 ∧
    (volumeBarStyle [({} : Kline)] {} 0).height ≠ some 0 := by
  constructor
  · rfl
  · decide

/-- C7 (amended): on a non-empty sequence whose every candle has effective
volume 0, `klinesVolumeMax` returns 0, and `volumeBarStyle` returns the bare
column layout with no `height` entry for every candle — in particular the
division by the zero maximum is never reached. -/
theorem volumeBar_allZero (k : List Kline) (hne : k ≠ [])
    (hz : ∀ c ∈ k, effVol c = 0) :
    klinesVolumeMax k = 0 ∧
    ∀ (c : Kline) (idx : ℕ), (volumeBarStyle k c idx).height = none := by
  have hE : ¬k.isEmpty := by simpa [List.isEmpty_iff] using hne
  have hmax : klinesVolumeMax k = 0 := by
    simp only [klinesVolumeMax]
    rw [if_neg hE]
    exact foldVol_zero k hz
  refine ⟨hmax, ?_⟩
  intro c idx
  simp only [volumeBarStyle]
  rw [if_neg hE, if_pos hmax.le]
  exact candleColStyle_height k idx

/-- C7 witness: the all-zero-volume singleton sequence has volume maximum 0
and a height-less volume bar. -/
theorem volumeBar_allZero_witness :
    klinesVolumeMax [({} : Kline)] = 0 ∧
    (volumeBarStyle [({} : Kline)] {} 0).height = none := by
  have h := volumeBar_allZero [({} : Kline)] (by simp)
    (by
      intro c hc
      rw [List.mem_singleton] at hc
      subst hc
      rfl)
  exact ⟨h.1, h.2 {} 0⟩

/-- C8: on a non-empty sequence of length n, `getOriginalKlineIndex` equals
`n − 1 − displayIdx`, and the mapping is an involution on `0 ≤ i < n`. -/
theorem getOriginalKlineIndex_spec (k : List Kline) (i : ℤ) (hne : k ≠ [])
    (h0 : 0 ≤ i) (hn : i < (k.length : ℤ)) :
    getOriginalKlineIndex k i = (k.length : ℤ) - 1 - i ∧
    getOriginalKlineIndex k (getOriginalKlineIndex k i) = i := by
  have hE : ¬k.isEmpty := by simpa [List.isEmpty_iff] using hne
  unfold getOriginalKlineIndex
  simp only [if_neg hE]
  constructor
  · trivial
  · ring

/-- C8 witness: with 5 candles, display index 0 maps to 4, display index 4
maps to 0, and mapping display index 1 twice returns 1. -/
theorem getOriginalKlineIndex_spec_witness :
    getOriginalKlineIndex (List.replicate 5 ({} : Kline)) 0 = 4 ∧
    getOriginalKlineIndex (List.replicate 5 ({} : Kline)) 4 = 0 ∧
    getOriginalKlineIndex (List.replicate 5 ({} : Kline))
      (getOriginalKlineIndex (List.replicate 5 ({} : Kline)) 1) = 1 := by
  refine ⟨?_, ?_,
    (getOriginalKlineIndex_spec (List.replicate 5 ({} : Kline)) 1 (by simp) (by norm_num)
      (by simp only [List.length_replicate]; norm_num)).2⟩
  · rw [(getOriginalKlineIndex_spec (List.replicate 5 ({} : Kline)) 0 (by simp) le_rfl
      (by simp only [List.length_replicate]; norm_num)).1]
    simp only [List.length_replicate]
    norm_num
  · rw [(getOriginalKlineIndex_spec (List.replicate 5 ({} : Kline)) 4 (by simp) (by norm_num)
      (by simp only [List.length_replicate]; norm_num)).1]
    simp only [List.length_replicate]
    norm_num

/-- C9: for every candle sequence — negative per-candle volumes included — the
volume-axis maximum is non-negative: the accumulator starts at 0 and is only
ever replaced by a strictly larger effective volume. -/
theorem klinesVolumeMax_nonneg (k : List Kline) : 0 ≤ klinesVolumeMax k := by
  simp only [klinesVolumeMax]
  split_ifs
  · exact le_rfl
  · exact foldVol_nonneg k 0 le_rfl

/-- C10: for every non-empty sequence the price range is non-zero, so the
`range === 0` early return of `candleWickStyle` / `candleBodyStyle` is
unreachable: every candle gets a real rectangle, with wick height ≥ 0.5 and
body height ≥ 1. -/
theorem candleStyles_real (k : List Kline) (c : Kline) (hne : k ≠ []) :
    (klinesScale k).max - (klinesScale k).min ≠ 0 ∧
    (∃ hw : ℚ, (candleWickStyle k c).height = some hw ∧ (0.5 : ℚ) ≤ hw) ∧
    (∃ hb : ℚ, (candleBodyStyle k c).height = some hb ∧ (1 : ℚ) ≤ hb) := by
  have hE : ¬k.isEmpty := by simpa [List.isEmpty_iff] using hne
  have hr : (klinesScale k).max - (klinesScale k).min ≠ 0 :=
    ne_of_gt (sub_pos.mpr (klinesScale_min_lt_max k))
  refine ⟨hr, ?_, ?_⟩
  · simp only [candleWickStyle]
    rw [if_neg hE, if_neg hr]
    exact ⟨_, rfl, le_max_left _ _⟩
  · simp only [candleBodyStyle]
    rw [if_neg hE, if_neg hr]
    exact ⟨_, rfl, le_max_left _ _⟩

/-- C10 witness: a singleton sequence of an all-null candle still gets a real
wick (height 0.5) and body (height 1). -/
theorem candleStyles_real_witness :
    (klinesScale [({} : Kline)]).max - (klinesScale [({} : Kline)]).min ≠ 0 ∧
    (∃ hw : ℚ, (candleWickStyle [({} : Kline)] {}).height = some hw ∧ (0.5 : ℚ) ≤ hw) ∧
    (∃ hb : ℚ, (candleBodyStyle [({} : Kline)] {}).height = some hb ∧ (1 : ℚ) ≤ hb) :=
  candleStyles_real [{}] {} (by simp)

end Arbitrage
